import Mathlib

/-!
Shallow embedding of `django_restql/mixins.py`: the projection resolver
(`DynamicFieldsMixin.fields`), the nested mutation engine
(`NestedCreateMixin.create`, `NestedUpdateMixin.update` and their
relation handlers) and the eager-load planner
(`RestQLViewMixin.get_mapping_values` / `get_all_dict_values`),
together with theorems settling the specification claims.
-/

set_option autoImplicit false

/-- Association-list lookup, mirroring Python dict indexing (`d[k]` / `d.get(k)`):
the key occurs at most once in a Python dict, so first match is the value. -/
def lookupAL {α : Type} (l : List (String × α)) (k : String) : Option α :=
  (l.find? (fun p => p.1 == k)).map Prod.snd

/-- Python `d.update({k: v})` on an association list: overwrite in place when the
key is present, append otherwise. -/
def dictUpsert {α : Type} (l : List (String × α)) (k : String) (v : α) :
    List (String × α) :=
  if l.any (fun p => p.1 == k) then
    l.map (fun p => if p.1 == k then (k, v) else p)
  else
    l ++ [(k, v)]

/-- Python `d.update(other)` folded over the entries of `other`. -/
def dictUpdate {α : Type} (l : List (String × α)) (other : List (String × α)) :
    List (String × α) :=
  other.foldl (fun acc p => dictUpsert acc p.1 p.2) l

/- ### Projection resolver data model -/

/-- What kind of serializer object sits under a field name in `fields`.
`flat` is any non-serializer field; the other three are the classes
`Serializer`, `ListSerializer` and `DynamicSerializerMethodField` which
the code accepts as nested (`mixins.py` lines 151-155). -/
inductive FieldKind where
  | flat
  | nestedSingle
  | nestedList
  | nestedMethod
  deriving DecidableEq, Repr

/-- `isinstance(fields[nested_field], (Serializer, ListSerializer,
DynamicSerializerMethodField))`. -/
def FieldKind.isNested : FieldKind → Bool
  | .flat => false
  | _ => true

/-- A node of the parsed query (selection tree): either a flat field name or a
dict mapping nested-field names to sub-trees (a Python dict may carry several
keys, hence a list of entries). -/
inductive SelNode where
  | flat (name : String)
  | nested (entries : List (String × List SelNode))
  deriving Repr

/-- A selection tree: the parsed query is a list of nodes. -/
abbrev SelTree := List SelNode

mutual
/-- Python `repr` of a selection-tree element (a string gets quotes). -/
def reprSelNode : SelNode → String
  | .flat n => "\x27" ++ n ++ "\x27"
  | .nested es => "\x7b" ++ reprSelEntries es ++ "\x7d"

/-- Comma-joined `repr`s of the entries of a query dict node. -/
def reprSelEntries : List (String × List SelNode) → String
  | [] => ""
  | [(k, t)] => "\x27" ++ k ++ "\x27: [" ++ reprSelTree t ++ "]"
  | (k, t) :: rest =>
      "\x27" ++ k ++ "\x27: [" ++ reprSelTree t ++ "], " ++ reprSelEntries rest

/-- Comma-joined `repr`s of the elements of a selection sub-tree. -/
def reprSelTree : List SelNode → String
  | [] => ""
  | [n] => reprSelNode n
  | n :: rest => reprSelNode n ++ ", " ++ reprSelTree rest
end

/-- Python `str` of the object interpolated by `"'%s' field is not found" %
field`: for a flat selector `field` is the plain string, for a dict selector it
is the whole dict. -/
def strOfSelNode : SelNode → String
  | .flat n => n
  | .nested es => "\x7b" ++ reprSelEntries es ++ "\x7d"

/-- Errors surfaced by the resolver: `FieldNotFound` (raised by
`get_allowed_fields`) and `ValidationError` (raised while applying a query). -/
inductive ResolveError where
  | fieldNotFound (msg : String)
  | validation (msg : String)
  deriving DecidableEq, Repr

/-- Result of applying a query to a field dict: the surviving fields plus the
recorded `nested_fields_queries` scope map. -/
structure ResolveOk where
  visible : List (String × FieldKind)
  nestedScope : List (String × SelTree)

/-- The validity checks run for each key of a dict selector
(`mixins.py` lines 147-157): the key must be among `all_fields` and its field
must be one of the nested serializer classes. -/
def checkNestedEntry (fullFields : List (String × FieldKind)) (node : SelNode)
    (entry : String × SelTree) : Except ResolveError Unit :=
  if ¬ ((fullFields.map Prod.fst).contains entry.1) then
    .error (.validation
      ("\x27" ++ strOfSelNode node ++ "\x27 field is not found"))
  else
    match lookupAL fullFields entry.1 with
    | some k =>
        if ¬ k.isNested then
          .error (.validation ("\x27" ++ entry.1 ++ "\x27 is not a nested field"))
        else
          .ok ()
    | none => .ok ()

/-- One iteration of the `for field in self.query` loop (`mixins.py` lines
144-164), threading the `allowed_flat_fields` list and the
`allowed_nested_fields` dict. -/
def procSelNode (fullFields : List (String × FieldKind))
    (acc : List String × List (String × SelTree)) (node : SelNode) :
    Except ResolveError (List String × List (String × SelTree)) :=
  match node with
  | .nested es => do
      let _ ← es.foldlM (fun _ e => checkNestedEntry fullFields (.nested es) e) ()
      .ok (acc.1, dictUpdate acc.2 es)
  | .flat n =>
      if ¬ ((fullFields.map Prod.fst).contains n) then
        .error (.validation ("\x27" ++ n ++ "\x27 field is not found"))
      else
        .ok (acc.1 ++ [n], acc.2)

/-- Applying a parsed query to the field dict (`mixins.py` lines 141-174):
validate and collect allowed flat fields and nested fields, then pop every
field not allowed, preserving the order of the remaining ones. -/
def resolveQuery (fullFields : List (String × FieldKind)) (query : SelTree) :
    Except ResolveError ResolveOk := do
  let (flats, nested) ← query.foldlM (procSelNode fullFields) ([], [])
  let allAllowed := flats ++ nested.map Prod.fst
  .ok ⟨fullFields.filter (fun p => allAllowed.contains p.1), nested⟩

/-- `get_allowed_fields` (`mixins.py` lines 67-90): apply the `fields` and
`exclude` constructor arguments, raising `FieldNotFound` when a named field
does not exist. -/
def get_allowed_fields (declared : List (String × FieldKind))
    (allowedArg excludedArg : Option (List String)) :
    Except ResolveError (List (String × FieldKind)) := do
  let fields₁ ←
    match allowedArg with
    | none => pure declared
    | some a =>
        match a.find? (fun n => ¬ ((declared.map Prod.fst).contains n)) with
        | some bad =>
            .error (.fieldNotFound ("Field \x60" ++ bad ++ "\x60 is not found"))
        | none => pure (declared.filter (fun p => a.contains p.1))
  match excludedArg with
  | none => pure fields₁
  | some e =>
      match e.find? (fun n => ¬ ((fields₁.map Prod.fst).contains n)) with
      | some bad =>
          .error (.fieldNotFound ("Field \x60" ++ bad ++ "\x60 is not found"))
      | none => pure (fields₁.filter (fun p => ¬ (e.contains p.1)))

/-- The request, with the parser (an external collaborator per the spec)
already applied to the raw query string. -/
structure Request where
  method : String
  hasQueryParam : Bool
  parsedQuery : SelTree

/-- The serializer's position in the serializer tree, as sniffed from
`self.parent` / `self.field_name` (`mixins.py` lines 106-134).  For the two
nested shapes, `parentScope` is `some scope` when the parent has the
`nested_fields_queries` attribute and `none` otherwise. -/
inductive ParentCtx where
  | topRetrieve
  | topList
  | listUnder (fieldName : String) (parentScope : Option (List (String × SelTree)))
  | serUnder (fieldName : String) (parentScope : Option (List (String × SelTree)))
  | unknown

/-- The value `self.query` holds after the context dispatch of `mixins.py`
lines 116-130: top-level contexts parse the request (unless a query was passed
to the constructor), nested contexts consult the parent's recorded scope
(falling back to the constructor query when the parent recorded none). -/
def effectiveQuery (selfQuery : Option SelTree) (req : Request)
    (ctx : ParentCtx) : Option SelTree :=
  match ctx with
  | .topRetrieve | .topList =>
      match selfQuery with
      | some q => some q
      | none => some req.parsedQuery
  | .listUnder fn ps | .serUnder fn ps =>
      match ps with
      | some scope => (lookupAL scope fn).bind (fun t => some t)
      | none => selfQuery
  | .unknown => none

/-- The `fields` property (`mixins.py` lines 92-174): constructor-argument
filtering, the GET/query-param guard, context dispatch, and query
application.  Returns the visible fields and the recorded
`nested_fields_queries` scope (`none` when the query path was not taken). -/
def fieldsProp (declared : List (String × FieldKind))
    (allowedArg excludedArg : Option (List String)) (selfQuery : Option SelTree)
    (req : Option Request) (ctx : ParentCtx) :
    Except ResolveError (List (String × FieldKind) × Option (List (String × SelTree))) := do
  let fields ← get_allowed_fields declared allowedArg excludedArg
  match req with
  | none => .ok (fields, none)
  | some r =>
      if r.method ≠ "GET" ∨ r.hasQueryParam = false then
        .ok (fields, none)
      else
        match ctx with
        | .unknown => .ok (fields, none)
        | _ =>
            match effectiveQuery selfQuery r ctx with
            | none => .ok (fields, none)
            | some q =>
                (resolveQuery fields q).map (fun res => (res.visible, some res.nestedScope))

/-- Flat leaf names of a selection tree, in order. -/
def leafNames : SelTree → List String
  | [] => []
  | .flat n :: rest => n :: leafNames rest
  | .nested _ :: rest => leafNames rest

/-- Nested-key names of a selection tree, in order. -/
def nestedKeys : SelTree → List String
  | [] => []
  | .flat _ :: rest => nestedKeys rest
  | .nested es :: rest => es.map Prod.fst ++ nestedKeys rest

/- ### Eager-load planner data model -/

/-- A value of the dict produced by `get_restql_query_dict`: `None` for a flat
selection, a nested dict for a nested selection. -/
inductive PVal where
  | pynull
  | pdict (entries : List (String × PVal))

/-- A value of a declared `select_related`/`prefetch_related` load-mapping:
`None`, a directive string, or a dict (either a `\x7bbase, nested\x7d` pair or a
nested sub-mapping). -/
inductive MVal where
  | mnull
  | mstr (s : String)
  | mdict (entries : List (String × MVal))
  deriving Repr

/-- Python truthiness of a mapping value: `None` and empty strings/dicts are
falsy. -/
def MVal.truthy : MVal → Bool
  | .mnull => false
  | .mstr s => ¬ s.isEmpty
  | .mdict es => ¬ es.isEmpty

/-- Python `d.get(k)`: `None` when the key is absent. -/
def mGet (es : List (String × MVal)) (k : String) : MVal :=
  match lookupAL es k with
  | some v => v
  | none => .mnull

mutual
/-- `get_restql_query_dict` (`mixins.py` lines 600-617): flatten a selection
tree into a key → sub-dict mapping, `None` standing for a flat selection. -/
def get_restql_query_dict : SelTree → List (String × PVal)
  | t => queryDictAux [] t

/-- The `for item in data` loop of `get_restql_query_dict`, threading the
`keys` dict. -/
def queryDictAux (keys : List (String × PVal)) : SelTree → List (String × PVal)
  | [] => keys
  | .flat n :: rest => queryDictAux (dictUpsert keys n .pynull) rest
  | .nested es :: rest => queryDictAux (queryDictEntries keys es) rest

/-- The inner `for key, nested_items in item.items()` loop. -/
def queryDictEntries (keys : List (String × PVal)) :
    List (String × List SelNode) → List (String × PVal)
  | [] => keys
  | (k, t) :: rest =>
      queryDictEntries (dictUpsert keys k (.pdict (get_restql_query_dict t))) rest
end

/-- `get_all_dict_values` (`mixins.py` lines 624-636): every non-dict value
found anywhere in a mapping, depth-first. -/
def get_all_dict_values : List (String × MVal) → List MVal
  | [] => []
  | (_, .mdict es) :: rest => get_all_dict_values es ++ get_all_dict_values rest
  | (_, v) :: rest => v :: get_all_dict_values rest

/-- `get_mapping_values` (`mixins.py` lines 638-671): collect the load
directives the selection demands from a declared load-mapping. -/
def get_mapping_values (parsed : List (String × PVal))
    (mapping : List (String × MVal)) : List MVal :=
  match parsed with
  | [] => []
  | (k, pv) :: rest =>
      let tail := get_mapping_values rest mapping
      if (mapping.map Prod.fst).contains k then
        let mv := mGet mapping k
        let bn : MVal × MVal :=
          match mv with
          | .mdict es => (mGet es "base", mGet es "nested")
          | v => (v, .mnull)
        let baseVals := if bn.1.truthy then [bn.1] else []
        let nestedVals :=
          if bn.2.truthy then
            match bn.2 with
            | .mdict nes =>
                match pv with
                | .pdict pes => get_mapping_values pes nes
                | .pynull => get_all_dict_values nes
            | _ => []
          else []
        baseVals ++ nestedVals ++ tail
      else
        tail

/- ### Nested mutation engine data model -/

/-- Operation keys: the four constants from `operations.py` plus arbitrary
other strings appearing as keys of an operation payload. -/
inductive OpKey where
  | ADD
  | CREATE
  | REMOVE
  | UPDATE
  | other (s : String)
  deriving DecidableEq, Repr

/-- The string an operation key renders as in `"%s is an invalid operation, "`.
The recognized keys are opaque constants of `operations.py` (not in scope); the
claims only interpolate unrecognized keys. -/
def OpKey.str : OpKey → String
  | .ADD => "add_operation"
  | .CREATE => "create_operation"
  | .REMOVE => "remove_operation"
  | .UPDATE => "update_operation"
  | .other s => s

/-- `True` for the four keys of the closed operation set. -/
def OpKey.recognized : OpKey → Bool
  | .other _ => false
  | _ => true

/-- The operand under one operation key: a list of pks (`ADD`/`REMOVE`), a list
of sub-payloads (`CREATE`), or a pk → partial-payload mapping (`UPDATE`). -/
inductive OpVal where
  | pks (l : List Nat)
  | subs (l : List (List (String × Nat)))
  | upd (l : List (Nat × List (String × Nat)))
  deriving DecidableEq, Repr

/-- The pk list of an operand (what `values[ADD]`/`values[REMOVE]` holds). -/
def OpVal.asPks : OpVal → List Nat
  | .pks l => l
  | _ => []

/-- The sub-payload list of an operand (what `values[CREATE]` holds). -/
def OpVal.asSubs : OpVal → List (List (String × Nat))
  | .subs l => l
  | _ => []

/-- The pk → partial-payload mapping of an operand (what `values[UPDATE]`
holds). -/
def OpVal.asUpd : OpVal → List (Nat × List (String × Nat))
  | .upd l => l
  | _ => []

/-- A value of `validated_data`: a plain value, a reference to an existing
related entity, a sub-entity payload, or a collection-operation dict. -/
inductive PayVal where
  | prim (n : Nat)
  | ref (pk : Nat)
  | obj (fields : List (String × Nat))
  | ops (l : List (OpKey × OpVal))
  deriving DecidableEq, Repr

/-- The scalar a payload value assigns when written onto a model field. -/
def PayVal.asNat : PayVal → Nat
  | .prim n => n
  | .ref pk => pk
  | _ => 0

/-- The operation dict of a payload value (collection fields). -/
def PayVal.asOps : PayVal → List (OpKey × OpVal)
  | .ops l => l
  | _ => []

/-- The sub-payload of a payload value (writable single nested fields). -/
def PayVal.asObj : PayVal → List (String × Nat)
  | .obj fs => fs
  | _ => []

/-- What the `create`/`update` classification loop (`mixins.py` lines 262-287
and 510-534) observes about a field's serializer: `Serializer` vs
`ListSerializer`, `_ReplaceableField` vs `_WritableField`, and for list fields
the relation descriptor class on the model. -/
inductive WriteMode where
  | replaceable
  | writable
  | neither
  deriving DecidableEq, Repr

/-- Relation cardinality of a list field, from
`getattr(model, field).rel`. -/
inductive RelCard where
  | manyToOne
  | manyToMany
  | otherRel
  deriving DecidableEq, Repr

/-- Field descriptor used by the classification loop. -/
inductive FieldDesc where
  | plain
  | singleSer (mode : WriteMode)
  | listSer (mode : WriteMode) (card : RelCard)
  deriving DecidableEq, Repr

/-- The schema: serializer field descriptors plus, for has-many fields, the
name of the foreign key on the child model
(`getattr(model, field).field.name`). -/
structure Schema where
  descs : List (String × FieldDesc)
  fkOf : String → String

/-- Output of the classification loop shared by `create` and `update`:
the four relation partitions plus the remaining (plain) validated data. -/
structure Classified where
  repl : List (String × PayVal)
  writ : List (String × PayVal)
  m2m : List (String × PayVal)
  m2o : List (String × PayVal)
  remaining : List (String × PayVal)
  deriving DecidableEq, Repr

/-- The classification loop (`mixins.py` lines 247-287 / 496-534): route each
field of `validated_data` by its serializer kind, write mode and relation
cardinality; unmatched fields stay in `validated_data`. -/
def classify (descs : List (String × FieldDesc)) (data : List (String × PayVal)) :
    Classified :=
  data.foldl
    (fun acc p =>
      match (lookupAL descs p.1).getD .plain with
      | .singleSer .replaceable => { acc with repl := acc.repl ++ [p] }
      | .singleSer .writable => { acc with writ := acc.writ ++ [p] }
      | .listSer .replaceable .manyToOne
      | .listSer .writable .manyToOne => { acc with m2o := acc.m2o ++ [p] }
      | .listSer .replaceable .manyToMany
      | .listSer .writable .manyToMany => { acc with m2m := acc.m2m ++ [p] }
      | _ => { acc with remaining := acc.remaining ++ [p] })
    ⟨[], [], [], [], []⟩

/-- The data store: a pk counter, the entities (pk → scalar fields) and the
many-to-many relation contents keyed by (owner pk, field name). -/
structure Store where
  nextPk : Nat
  entities : List (Nat × List (String × Nat))
  relations : List ((Nat × String) × List Nat)
  deriving DecidableEq, Repr

/-- `model.objects.create(...)`: append a fresh entity, return its pk. -/
def Store.createEntity (st : Store) (fields : List (String × Nat)) : Store × Nat :=
  ({ st with nextPk := st.nextPk + 1, entities := st.entities ++ [(st.nextPk, fields)] },
   st.nextPk)

/-- Contents of a many-to-many relation accessor. -/
def Store.relGet (st : Store) (pk : Nat) (f : String) : List Nat :=
  match (st.relations.find? (fun p => p.1.1 = pk ∧ p.1.2 = f)).map Prod.snd with
  | some l => l
  | none => []

/-- Replace the contents of a relation (used by `.set(pks)` and to model
`.add`/`.remove` results). -/
def Store.relPut (st : Store) (pk : Nat) (f : String) (l : List Nat) : Store :=
  if st.relations.any (fun p => p.1.1 = pk ∧ p.1.2 = f) then
    { st with relations :=
        st.relations.map (fun p => if p.1.1 = pk ∧ p.1.2 = f then (p.1, l) else p) }
  else
    { st with relations := st.relations ++ [((pk, f), l)] }

/-- `related_manager.add(*pks)`: attach the pks not already attached. -/
def Store.relAdd (st : Store) (pk : Nat) (f : String) (pks : List Nat) : Store :=
  let old := st.relGet pk f
  st.relPut pk f (old ++ pks.filter (fun x => ¬ old.contains x))

/-- `related_manager.remove(*pks)`: detach the given pks. -/
def Store.relRemove (st : Store) (pk : Nat) (f : String) (pks : List Nat) : Store :=
  st.relPut pk f ((st.relGet pk f).filter (fun x => ¬ pks.contains x))

/-- `queryset.filter(pk__in=pks).update(**\x7bfk: v\x7d)`: bulk-set a field on the
entities whose pk is listed. -/
def Store.bulkSetField (st : Store) (pks : List Nat) (fk : String) (v : Nat) : Store :=
  { st with entities :=
      st.entities.map (fun e => if pks.contains e.1 then (e.1, dictUpsert e.2 fk v) else e) }

/-- Partial serializer save onto an existing entity: assign each supplied
sub-field. -/
def Store.updEntity (st : Store) (pk : Nat) (vals : List (String × Nat)) : Store :=
  { st with entities :=
      st.entities.map (fun e => if e.1 = pk then (e.1, dictUpdate e.2 vals) else e) }

/-- Field values of an entity, when it exists. -/
def Store.entFields (st : Store) (pk : Nat) : Option (List (String × Nat)) :=
  (st.entities.find? (fun e => e.1 = pk)).map Prod.snd

/-- Errors of the mutation engine: `ValidationError`s and data-store lookup
failures (`DoesNotExist` from `related_manager.get(pk=pk)`). -/
inductive MutErr where
  | validation (msg : String)
  | storeMiss
  deriving DecidableEq, Repr

/-- `bulk_create_objs` (`mixins.py` lines 191-200): validate-and-save each
sub-payload through the child serializer, collecting the new pks. -/
def bulk_create_objs : Store → List (List (String × Nat)) → Store × List Nat
  | st, [] => (st, [])
  | st, v :: rest =>
      let c := st.createEntity v
      let r := bulk_create_objs c.1 rest
      (r.1, c.2 :: r.2)

/-- `create_writable_foreignkey_related` (`mixins.py` lines 179-189): create
each writable single nested sub-entity, returning field → created object. -/
def create_writable_foreignkey_related : Store → List (String × PayVal) →
    Store × List (String × Nat)
  | st, [] => (st, [])
  | st, (f, v) :: rest =>
      let c := st.createEntity v.asObj
      let r := create_writable_foreignkey_related c.1 rest
      (r.1, (f, c.2) :: r.2)

/-- The `for operation in values` loop of `create_many_to_one_related`
(`mixins.py` lines 213-224): `ADD` bulk-reassigns the foreign key of the
referenced rows, `CREATE` stamps the foreign key onto each sub-payload and
creates it; any other key is skipped (the loop has no `else` branch). -/
def createM2OOps (st : Store) (instPk : Nat) (fk : String)
    (fieldPks : List Nat) : List (OpKey × OpVal) → Store × List Nat
  | [] => (st, fieldPks)
  | (k, v) :: rest =>
      match k with
      | .ADD =>
          let st' := st.bulkSetField v.asPks fk instPk
          createM2OOps st' instPk fk v.asPks rest
      | .CREATE =>
          let stamped := v.asSubs.map (fun s => dictUpsert s fk instPk)
          let r := bulk_create_objs st stamped
          createM2OOps r.1 instPk fk r.2 rest
      | _ => createM2OOps st instPk fk fieldPks rest

/-- `create_many_to_one_related` (`mixins.py` lines 202-225). -/
def create_many_to_one_related (st : Store) (instPk : Nat) (fkOf : String → String) :
    List (String × PayVal) → Store × List (String × List Nat)
  | [] => (st, [])
  | (f, v) :: rest =>
      let r1 := createM2OOps st instPk (fkOf f) [] v.asOps
      let r2 := create_many_to_one_related r1.1 instPk fkOf rest
      (r2.1, (f, r1.2) :: r2.2)

/-- The `for operation in values` loop of `create_many_to_many_related`
(`mixins.py` lines 234-244): both `ADD` and `CREATE` end in `obj.set(pks)`,
replacing the relation contents; any other key is skipped. -/
def createM2MOps (st : Store) (instPk : Nat) (f : String)
    (fieldPks : List Nat) : List (OpKey × OpVal) → Store × List Nat
  | [] => (st, fieldPks)
  | (k, v) :: rest =>
      match k with
      | .ADD =>
          let st' := st.relPut instPk f v.asPks
          createM2MOps st' instPk f v.asPks rest
      | .CREATE =>
          let r := bulk_create_objs st v.asSubs
          let st2 := r.1.relPut instPk f r.2
          createM2MOps st2 instPk f r.2 rest
      | _ => createM2MOps st instPk f fieldPks rest

/-- `create_many_to_many_related` (`mixins.py` lines 227-245). -/
def create_many_to_many_related (st : Store) (instPk : Nat) :
    List (String × PayVal) → Store × List (String × List Nat)
  | [] => (st, [])
  | (f, v) :: rest =>
      let r1 := createM2MOps st instPk f [] v.asOps
      let r2 := create_many_to_many_related r1.1 instPk rest
      (r2.1, (f, r1.2) :: r2.2)

/-- `NestedCreateMixin.create` (`mixins.py` lines 247-308): classify the
payload, create writable single sub-entities, create the base entity from the
plain fields plus the resolved single-valued relations, then run the
many-to-many and the many-to-one collection handlers against the new pk. -/
def create (st : Store) (sch : Schema) (data : List (String × PayVal)) :
    Store × Nat :=
  let parts := classify sch.descs data
  let rw := create_writable_foreignkey_related st parts.writ
  let baseFields :=
    dictUpdate (parts.remaining.map (fun p => (p.1, p.2.asNat)))
      (parts.repl.map (fun p => (p.1, p.2.asNat)) ++ rw.2)
  let c := rw.1.createEntity baseFields
  let r3 := create_many_to_many_related c.1 c.2 parts.m2m
  let r4 := create_many_to_one_related r3.1 c.2 sch.fkOf parts.m2o
  (r4.1, c.2)

/- ### Update engine -/

/-- Events of one `NestedUpdateMixin.update` run, in execution order. -/
inductive UEvent where
  | replaceFK (field : String)
  | writFK (field : String)
  | m2mWrite (field : String)
  | m2oWrite (field : String)
  | baseUpdate
  deriving DecidableEq, Repr

/-- `update_replaceable_foreignkey_related` (`mixins.py` lines 316-323):
assign each new reference onto the instance and save. -/
def update_replaceable_foreignkey_related (st : Store) (instPk : Nat) :
    List (String × PayVal) → Store × List UEvent
  | [] => (st, [])
  | (f, v) :: rest =>
      let st' := st.updEntity instPk [(f, v.asNat)]
      let r := update_replaceable_foreignkey_related st' instPk rest
      (r.1, .replaceFK f :: r.2)

/-- `update_writable_foreignkey_related` (`mixins.py` lines 325-341): load the
related sub-entity and partially update it with the sub-payload. -/
def update_writable_foreignkey_related (st : Store) (instPk : Nat) :
    List (String × PayVal) → Except MutErr (Store × List UEvent)
  | [] => .ok (st, [])
  | (f, v) :: rest => do
      match (st.entFields instPk).bind (fun fs => lookupAL fs f) with
      | some refPk =>
          let st' := st.updEntity refPk v.asObj
          let r ← update_writable_foreignkey_related st' instPk rest
          .ok (r.1, .writFK f :: r.2)
      | none => .error .storeMiss

/-- `bulk_update_many_to_many_related` (`mixins.py` lines 366-383): load each
referenced member of the relation and apply its partial payload. -/
def m2mBulkUpd (st : Store) (instPk : Nat) (f : String) :
    List (Nat × List (String × Nat)) → Except MutErr Store
  | [] => .ok st
  | (pk, vals) :: rest =>
      if (st.relGet instPk f).contains pk ∧ (st.entFields pk).isSome then
        m2mBulkUpd (st.updEntity pk vals) instPk f rest
      else
        .error .storeMiss

/-- The `for operation in values` loop of `update_many_to_many_related`
(`mixins.py` lines 461-492): all four operations, and `ValidationError` on any
other key. -/
def updateM2MOps (st : Store) (instPk : Nat) (f : String) :
    List (OpKey × OpVal) → Except MutErr (Store × List UEvent)
  | [] => .ok (st, [])
  | (k, v) :: rest =>
      match k with
      | .ADD => do
          let st' := st.relAdd instPk f v.asPks
          let r ← updateM2MOps st' instPk f rest
          .ok (r.1, .m2mWrite f :: r.2)
      | .CREATE => do
          let c := bulk_create_objs st v.asSubs
          let st2 := c.1.relAdd instPk f c.2
          let r ← updateM2MOps st2 instPk f rest
          .ok (r.1, .m2mWrite f :: r.2)
      | .REMOVE => do
          let st' := st.relRemove instPk f v.asPks
          let r ← updateM2MOps st' instPk f rest
          .ok (r.1, .m2mWrite f :: r.2)
      | .UPDATE => do
          let st' ← m2mBulkUpd st instPk f v.asUpd
          let r ← updateM2MOps st' instPk f rest
          .ok (r.1, .m2mWrite f :: r.2)
      | .other s => .error (.validation (s ++ " is an invalid operation, "))

/-- `update_many_to_many_related` (`mixins.py` lines 452-493). -/
def update_many_to_many_related (st : Store) (instPk : Nat) :
    List (String × PayVal) → Except MutErr (Store × List UEvent)
  | [] => .ok (st, [])
  | (f, v) :: rest => do
      let r1 ← updateM2MOps st instPk f v.asOps
      let r2 ← update_many_to_many_related r1.1 instPk rest
      .ok (r2.1, r1.2 ++ r2.2)

/-- `queryset.all().filter(pk__in=pks).delete()` on a has-many accessor:
delete the children of `instPk` whose pk is listed. -/
def Store.deleteRelated (st : Store) (instPk : Nat) (fk : String)
    (pks : List Nat) : Store :=
  { st with entities :=
      st.entities.filter (fun e => ¬ (pks.contains e.1 ∧ lookupAL e.2 fk = some instPk)) }

/-- `bulk_update_many_to_one_related` (`mixins.py` lines 385-406): load each
referenced child, re-stamp the foreign key into the payload, and apply it. -/
def m2oBulkUpd (st : Store) (instPk : Nat) (fk : String) :
    List (Nat × List (String × Nat)) → Except MutErr Store
  | [] => .ok st
  | (pk, vals) :: rest =>
      match st.entFields pk with
      | some fs =>
          if lookupAL fs fk = some instPk then
            m2oBulkUpd (st.updEntity pk (dictUpsert vals fk instPk)) instPk fk rest
          else
            .error .storeMiss
      | none => .error .storeMiss

/-- The `for operation in values` loop of `update_many_to_one_related`
(`mixins.py` lines 422-449): all four operations (`REMOVE` deletes the rows
outright), and `ValidationError` on any other key. -/
def updateM2OOps (st : Store) (instPk : Nat) (fk : String) (f : String) :
    List (OpKey × OpVal) → Except MutErr (Store × List UEvent)
  | [] => .ok (st, [])
  | (k, v) :: rest =>
      match k with
      | .ADD => do
          let st' := st.bulkSetField v.asPks fk instPk
          let r ← updateM2OOps st' instPk fk f rest
          .ok (r.1, .m2oWrite f :: r.2)
      | .CREATE => do
          let stamped := v.asSubs.map (fun s => dictUpsert s fk instPk)
          let st1 := (bulk_create_objs st stamped).1
          let r ← updateM2OOps st1 instPk fk f rest
          .ok (r.1, .m2oWrite f :: r.2)
      | .REMOVE => do
          let st' := st.deleteRelated instPk fk v.asPks
          let r ← updateM2OOps st' instPk fk f rest
          .ok (r.1, .m2oWrite f :: r.2)
      | .UPDATE => do
          let st' ← m2oBulkUpd st instPk fk v.asUpd
          let r ← updateM2OOps st' instPk fk f rest
          .ok (r.1, .m2oWrite f :: r.2)
      | .other s => .error (.validation (s ++ " is an invalid operation, "))

/-- `update_many_to_one_related` (`mixins.py` lines 408-450). -/
def update_many_to_one_related (st : Store) (instPk : Nat) (fkOf : String → String) :
    List (String × PayVal) → Except MutErr (Store × List UEvent)
  | [] => .ok (st, [])
  | (f, v) :: rest => do
      let r1 ← updateM2OOps st instPk (fkOf f) f v.asOps
      let r2 ← update_many_to_one_related r1.1 instPk fkOf rest
      .ok (r2.1, r1.2 ++ r2.2)

/-- `NestedUpdateMixin.update` (`mixins.py` lines 495-556): classify, then run
the replaceable, writable, many-to-many and many-to-one handlers in that
order, and finally the base update with the remaining plain fields.  The
returned trace lists the performed writes in execution order. -/
def update (st : Store) (sch : Schema) (instPk : Nat)
    (data : List (String × PayVal)) : Except MutErr (Store × List UEvent) := do
  let parts := classify sch.descs data
  let r1 := update_replaceable_foreignkey_related st instPk parts.repl
  let r2 ← update_writable_foreignkey_related r1.1 instPk parts.writ
  let r3 ← update_many_to_many_related r2.1 instPk parts.m2m
  let r4 ← update_many_to_one_related r3.1 instPk sch.fkOf parts.m2o
  let st5 := r4.1.updEntity instPk (parts.remaining.map (fun p => (p.1, p.2.asNat)))
  .ok (st5, r1.2 ++ r2.2 ++ r3.2 ++ r4.2 ++ [.baseUpdate])

/- ### Event predicates and concrete instances used by the claims -/

/-- Is the event a many-to-many relation write? -/
def UEvent.isM2M : UEvent → Bool
  | .m2mWrite _ => true
  | _ => false

/-- Is the event a has-many (many-to-one) relation write? -/
def UEvent.isM2O : UEvent → Bool
  | .m2oWrite _ => true
  | _ => false

/-- A store with two pre-existing tag entities (pks 1 and 2). -/
def c1Store : Store := ⟨3, [(1, []), (2, [])], []⟩

/-- A schema with a plain `title` and a writable many-to-many `tags` field. -/
def c1Schema : Schema :=
  ⟨[("title", .plain), ("tags", .listSer .writable .manyToMany)], fun _ => "owner"⟩

/-- A create payload whose `tags` operation dict carries both an `ADD` operand
(the existing pk 1) and a `CREATE` operand (one new tag payload). -/
def c1Data : List (String × PayVal) :=
  [("title", .prim 5), ("tags", .ops [(.ADD, .pks [1]), (.CREATE, .subs [[("name", 7)]])])]

/- ### Theorems -/

theorem exceptBind_ok {ε α β : Type} (a : α) (f : α → Except ε β) :
    (Except.ok a : Except ε α) >>= f = f a := rfl

theorem exceptBind_err {ε α β : Type} (e : ε) (f : α → Except ε β) :
    (Except.error e : Except ε α) >>= f = Except.error e := rfl

/-- C1: the claim says that after a create whose many-to-many payload carries
both `ADD: [1]` and `CREATE: [\x7bname: 7\x7d]`, the relation contains both the
added pk 1 and the created entity (pk 4).  The code instead calls
`obj.set(pks)` for each operand, so the `CREATE` operand replaces the `ADD`
attachment: the relation ends as `[4]` and does not contain 1.  The spec's
stated intent (`ADD` attaches, both operands apply) is contradicted by the
code, which is a slip (`NestedUpdateMixin` uses `.add` for the same
operation). -/
theorem claim_C1 :
    (create c1Store c1Schema c1Data).1.relGet (create c1Store c1Schema c1Data).2 "tags" = [4]
    ∧ ¬ (1 ∈ (create c1Store c1Schema c1Data).1.relGet (create c1Store c1Schema c1Data).2 "tags") :=
  ⟨rfl, by decide⟩

/-- C2 counterexample: a create call whose many-to-many operation dict carries
the unrecognized key `FOO` does not fail — `create_many_to_many_related` has no
`else` branch, so the call returns exactly as if the unrecognized operation
were absent, refuting the claim that every nested-mutation call rejects
unknown operation keys. -/
theorem claim_C2_counterexample :
    create c1Store c1Schema [("tags", .ops [(.other "FOO", .pks [1])])]
      = create c1Store c1Schema [("tags", .ops [])] := rfl

/-- C3 counterexample: the selection `[\x7btitle: []\x7d]` over fields
`\x7btitle: flat\x7d` names only existing fields, yet `Resolve` fails with
"not a nested field" instead of returning the selected fields, refuting the
claim as stated (it lacks the hypothesis that nested keys name nested
fields). -/
theorem claim_C3_counterexample :
    resolveQuery [("title", FieldKind.flat)] [.nested [("title", [])]]
      = .error (.validation "\x27title\x27 is not a nested field") := rfl

/-- C4: over `Post` fields `\x7btitle, author, comments, tags\x7d`, the selection
`["title", \x7bcomments: ["text"]\x7d]` yields the visible fields
`title, comments` (in field order) and records the nested scope
`comments ↦ ["text"]`. -/
theorem claim_C4 :
    resolveQuery
      [("title", .flat), ("author", .nestedSingle), ("comments", .nestedList), ("tags", .nestedList)]
      [.flat "title", .nested [("comments", [.flat "text"])]]
    = .ok ⟨[("title", .flat), ("comments", .nestedList)], [("comments", [.flat "text"])]⟩ := rfl

/-- C7: the load plan for selection `["author", \x7bcomments: ["text"]\x7d]`
against mapping `\x7bauthor: "join:author", comments: \x7bbase:
"prefetch:comments", nested: \x7btext: None\x7d\x7d\x7d` emits exactly the two
directives: `text` maps to `None` (no directive), so the recursion emits
nothing below `comments`. -/
theorem claim_C7 :
    get_mapping_values
      (get_restql_query_dict [.flat "author", .nested [("comments", [.flat "text"])]])
      [("author", .mstr "join:author"),
       ("comments", .mdict
          [("base", .mstr "prefetch:comments"), ("nested", .mdict [("text", .mnull)])])]
    = [.mstr "join:author", .mstr "prefetch:comments"] := by
  simp [get_mapping_values, get_restql_query_dict, queryDictAux, queryDictEntries,
    get_all_dict_values, mGet, lookupAL, dictUpsert, MVal.truthy]
  rfl

/-- C8: the claim says a selection naming an absent field fails with an error
message identifying exactly the offending name.  For an absent nested key the
code interpolates the whole dict selector (`"'%s' field is not found" % field`
with `field` the dict, not `nested_field`): the message embeds
`\x7b'comments': ['text']\x7d` rather than `comments`.  The flat branch two lines
below interpolates the name itself, so the nested branch is a slip and the
claim reflects the intent. -/
theorem claim_C8 :
    resolveQuery [("title", FieldKind.flat)] [.nested [("comments", [.flat "text"])]]
      = .error (.validation "\x27\x7b\x27comments\x27: [\x27text\x27]\x7d\x27 field is not found")
    ∧ "\x27\x7b\x27comments\x27: [\x27text\x27]\x7d\x27 field is not found"
        ≠ "\x27comments\x27 field is not found" := ⟨rfl, by decide⟩

/-- C9: whenever the resolution context supplies no selection tree (the
context dispatch yields `none`), the `fields` property returns the full field
set unchanged, in order, recording no nested scope. -/
theorem claim_C9 (declared : List (String × FieldKind)) (selfQuery : Option SelTree)
    (r : Request) (ctx : ParentCtx) (h : effectiveQuery selfQuery r ctx = none) :
    fieldsProp declared none none selfQuery (some r) ctx = .ok (declared, none) := by
  unfold fieldsProp get_allowed_fields
  by_cases hm : r.method ≠ "GET" ∨ r.hasQueryParam = false
  · simp [hm]
  · simp [hm]
    cases ctx <;> simp_all [effectiveQuery]

/-- Witness for C9: a serializer nested under a parent whose recorded scope
lacks its field name resolves to all of its fields. -/
theorem claim_C9_witness :
    fieldsProp [("a", FieldKind.flat)] none none none
      (some ⟨"GET", true, []⟩) (.serUnder "x" (some [])) = .ok ([("a", FieldKind.flat)], none) :=
  claim_C9 _ _ _ _ rfl

/-- C10: when there is no request, the method is not GET, or the query
parameter is absent, the `fields` property returns exactly the
constructor-argument-filtered fields with no query filtering, even if a parsed
query was supplied to the serializer. -/
theorem claim_C10 (declared : List (String × FieldKind))
    (aArg eArg : Option (List String)) (selfQuery : Option SelTree)
    (req : Option Request) (ctx : ParentCtx)
    (h : req = none ∨ ∃ r, req = some r ∧ (r.method ≠ "GET" ∨ r.hasQueryParam = false)) :
    fieldsProp declared aArg eArg selfQuery req ctx
      = (get_allowed_fields declared aArg eArg).map (fun fs => (fs, none)) := by
  cases hg : get_allowed_fields declared aArg eArg with
  | error e => simp [fieldsProp, hg, Except.map, exceptBind_err]
  | ok fs =>
      rcases h with h | ⟨r, hr, hcond⟩
      · subst h; simp [fieldsProp, hg, Except.map, exceptBind_ok]
      · subst hr; simp [fieldsProp, hg, Except.map, exceptBind_ok, hcond]

/-- Witness for C10: a POST request with a supplied query is not filtered. -/
theorem claim_C10_witness :
    fieldsProp [("a", FieldKind.flat)] none none (some [.flat "a"])
      (some ⟨"POST", true, []⟩) .topRetrieve = .ok ([("a", FieldKind.flat)], none) := by
  rw [claim_C10 _ _ _ _ _ _ (Or.inr ⟨⟨"POST", true, []⟩, rfl, Or.inl (by decide)⟩)]
  rfl

theorem lookupAL_dictUpsert {α : Type} (l : List (String × α)) (k : String) (v : α) :
    lookupAL (dictUpsert l k v) k = some v := by
  unfold dictUpsert lookupAL
  by_cases h : l.any (fun p => p.1 == k)
  · simp only [h, if_true]
    induction l with
    | nil => simp at h
    | cons p rest ih =>
        by_cases hp : p.1 == k
        · simp [List.find?, hp]
        · simp only [List.any_cons, hp, Bool.false_or] at h
          simp only [List.map_cons, if_neg hp]
          rw [List.find?_cons_of_neg (a := p) _ hp]
          exact ih h
  · simp only [h, if_false]
    have hnone : l.find? (fun p => p.1 == k) = none := by
      rw [List.find?_eq_none]
      intro p hp
      by_contra hc
      exact (List.any_eq_false.mp (Bool.eq_false_iff.mpr h) p hp) (by simpa using hc)
    simp [List.find?_append, hnone, List.find?]

theorem mem_bulkSetField (st : Store) (pks : List Nat) (fk : String) (v : Nat)
    (e : Nat × List (String × Nat)) (he : e ∈ (st.bulkSetField pks fk v).entities) :
    e ∈ st.entities ∨ lookupAL e.2 fk = some v := by
  unfold Store.bulkSetField at he
  simp only [List.mem_map] at he
  obtain ⟨a, ha, hae⟩ := he
  by_cases h : pks.contains a.1
  · simp only [h, if_true] at hae
    right
    rw [← hae]
    exact lookupAL_dictUpsert a.2 fk v
  · simp only [h, if_false] at hae
    exact Or.inl (hae ▸ ha)

theorem mem_bulk_create_objs (subs : List (List (String × Nat))) :
    ∀ (st : Store) (e : Nat × List (String × Nat)),
      e ∈ (bulk_create_objs st subs).1.entities → e ∈ st.entities ∨ e.2 ∈ subs := by
  induction subs with
  | nil => intro st e he; exact Or.inl (by simpa [bulk_create_objs] using he)
  | cons v rest ih =>
      intro st e he
      simp only [bulk_create_objs] at he
      rcases ih _ _ he with h | h
      · simp only [Store.createEntity, List.mem_append, List.mem_singleton] at h
        rcases h with h | h
        · exact Or.inl h
        · right; rw [h]; exact List.mem_cons_self _ _
      · exact Or.inr (List.mem_cons_of_mem _ h)

theorem createM2OOps_inv (instPk : Nat) (fk : String) (ops : List (OpKey × OpVal)) :
    ∀ (st : Store) (fieldPks : List Nat) (e : Nat × List (String × Nat)),
      e ∈ (createM2OOps st instPk fk fieldPks ops).1.entities →
      e ∈ st.entities ∨ lookupAL e.2 fk = some instPk := by
  induction ops with
  | nil => intro st fp e he; exact Or.inl (by simpa [createM2OOps] using he)
  | cons kv rest ih =>
      intro st fp e he
      obtain ⟨k, v⟩ := kv
      cases k with
      | ADD =>
          simp only [createM2OOps] at he
          rcases ih _ _ _ he with h | h
          · exact mem_bulkSetField _ _ _ _ _ h
          · exact Or.inr h
      | CREATE =>
          simp only [createM2OOps] at he
          rcases ih _ _ _ he with h | h
          · rcases mem_bulk_create_objs _ _ _ h with h2 | h2
            · exact Or.inl h2
            · simp only [List.mem_map] at h2
              obtain ⟨s, _, hs⟩ := h2
              right; rw [← hs]; exact lookupAL_dictUpsert s fk instPk
          · exact Or.inr h
      | REMOVE => simp only [createM2OOps] at he; exact ih _ _ _ he
      | UPDATE => simp only [createM2OOps] at he; exact ih _ _ _ he
      | other s => simp only [createM2OOps] at he; exact ih _ _ _ he

theorem create_many_to_one_related_inv (instPk : Nat) (fkOf : String → String)
    (data : List (String × PayVal)) :
    ∀ (st : Store) (e : Nat × List (String × Nat)),
      e ∈ (create_many_to_one_related st instPk fkOf data).1.entities →
      e ∈ st.entities ∨ ∃ f, f ∈ data.map Prod.fst ∧ lookupAL e.2 (fkOf f) = some instPk := by
  induction data with
  | nil => intro st e he; exact Or.inl (by simpa [create_many_to_one_related] using he)
  | cons fv rest ih =>
      intro st e he
      obtain ⟨f, v⟩ := fv
      simp only [create_many_to_one_related] at he
      rcases ih _ _ he with h | ⟨g, hg, hl⟩
      · rcases createM2OOps_inv _ _ _ _ _ _ h with h2 | h2
        · exact Or.inl h2
        · exact Or.inr ⟨f, by simp, h2⟩
      · exact Or.inr ⟨g, by simp [hg], hl⟩

/-- C6: after `create_many_to_one_related` runs against a freshly created
parent `instPk`, every entity present in the store that was not present
before the call (each sub-entity created by a `CREATE` operand, as well as
rows re-pointed by `ADD`) carries the owning foreign key of one of the
processed has-many fields, equal to the parent's key: the code stamps
`v.update({foreignkey: instance.pk})` onto each sub-payload before
creating it. -/
theorem claim_C6 (st : Store) (instPk : Nat) (fkOf : String → String)
    (data : List (String × PayVal)) (e : Nat × List (String × Nat))
    (he : e ∈ (create_many_to_one_related st instPk fkOf data).1.entities)
    (hnew : e ∉ st.entities) :
    ∃ f, f ∈ data.map Prod.fst ∧ lookupAL e.2 (fkOf f) = some instPk := by
  rcases create_many_to_one_related_inv instPk fkOf data st e he with h | h
  · exact absurd h hnew
  · exact h

/-- Witness for C6: creating one comment under parent pk 1 yields the entity
`(0, [(text, 9), (post, 1)])`, whose `post` foreign key is 1. -/
theorem claim_C6_witness :
    ∃ f, f ∈ ([("comments", PayVal.ops [(.CREATE, .subs [[("text", 9)]])])].map Prod.fst)
      ∧ lookupAL ([("text", 9), ("post", 1)] : List (String × Nat)) ((fun _ => "post") f) = some 1 :=
  claim_C6 ⟨0, [], []⟩ 1 (fun _ => "post")
    [("comments", PayVal.ops [(.CREATE, .subs [[("text", 9)]])])]
    (0, [("text", 9), ("post", 1)]) (by decide) (by decide)

theorem updateM2MOps_ok_recognized (instPk : Nat) (f : String) (ops : List (OpKey × OpVal)) :
    ∀ (st : Store) (r : Store × List UEvent), updateM2MOps st instPk f ops = .ok r →
      ∀ k v, (k, v) ∈ ops → OpKey.recognized k = true := by
  induction ops with
  | nil => intro st r _ k v hm; simp at hm
  | cons kv rest ih =>
      intro st r h k v hm
      obtain ⟨k0, v0⟩ := kv
      rcases List.mem_cons.mp hm with hm2 | hm2
      · cases k0 <;> simp_all [updateM2MOps, OpKey.recognized]
      · cases k0 with
        | ADD =>
            simp only [updateM2MOps] at h
            cases hrec : updateM2MOps (st.relAdd instPk f v0.asPks) instPk f rest with
            | error e => rw [hrec] at h; exact absurd h (by simp [exceptBind_err])
            | ok r2 => exact ih _ _ hrec k v hm2
        | CREATE =>
            simp only [updateM2MOps] at h
            cases hrec : updateM2MOps
                ((bulk_create_objs st v0.asSubs).1.relAdd instPk f (bulk_create_objs st v0.asSubs).2)
                instPk f rest with
            | error e => rw [hrec] at h; exact absurd h (by simp [exceptBind_err])
            | ok r2 => exact ih _ _ hrec k v hm2
        | REMOVE =>
            simp only [updateM2MOps] at h
            cases hrec : updateM2MOps (st.relRemove instPk f v0.asPks) instPk f rest with
            | error e => rw [hrec] at h; exact absurd h (by simp [exceptBind_err])
            | ok r2 => exact ih _ _ hrec k v hm2
        | UPDATE =>
            simp only [updateM2MOps] at h
            cases hb : m2mBulkUpd st instPk f v0.asUpd with
            | error e => rw [hb] at h; exact absurd h (by simp [exceptBind_err])
            | ok st2 =>
                rw [hb] at h
                simp only [exceptBind_ok] at h
                cases hrec : updateM2MOps st2 instPk f rest with
                | error e => rw [hrec] at h; exact absurd h (by simp [exceptBind_err])
                | ok r2 => exact ih _ _ hrec k v hm2
        | other s => simp [updateM2MOps] at h

theorem updateM2OOps_ok_recognized (instPk : Nat) (fk : String) (f : String)
    (ops : List (OpKey × OpVal)) :
    ∀ (st : Store) (r : Store × List UEvent), updateM2OOps st instPk fk f ops = .ok r →
      ∀ k v, (k, v) ∈ ops → OpKey.recognized k = true := by
  induction ops with
  | nil => intro st r _ k v hm; simp at hm
  | cons kv rest ih =>
      intro st r h k v hm
      obtain ⟨k0, v0⟩ := kv
      rcases List.mem_cons.mp hm with hm2 | hm2
      · cases k0 <;> simp_all [updateM2OOps, OpKey.recognized]
      · cases k0 with
        | ADD =>
            simp only [updateM2OOps] at h
            cases hrec : updateM2OOps (st.bulkSetField v0.asPks fk instPk) instPk fk f rest with
            | error e => rw [hrec] at h; exact absurd h (by simp [exceptBind_err])
            | ok r2 => exact ih _ _ hrec k v hm2
        | CREATE =>
            simp only [updateM2OOps] at h
            cases hrec : updateM2OOps
                (bulk_create_objs st (v0.asSubs.map (fun s => dictUpsert s fk instPk))).1
                instPk fk f rest with
            | error e => rw [hrec] at h; exact absurd h (by simp [exceptBind_err])
            | ok r2 => exact ih _ _ hrec k v hm2
        | REMOVE =>
            simp only [updateM2OOps] at h
            cases hrec : updateM2OOps (st.deleteRelated instPk fk v0.asPks) instPk fk f rest with
            | error e => rw [hrec] at h; exact absurd h (by simp [exceptBind_err])
            | ok r2 => exact ih _ _ hrec k v hm2
        | UPDATE =>
            simp only [updateM2OOps] at h
            cases hb : m2oBulkUpd st instPk fk v0.asUpd with
            | error e => rw [hb] at h; exact absurd h (by simp [exceptBind_err])
            | ok st2 =>
                rw [hb] at h
                simp only [exceptBind_ok] at h
                cases hrec : updateM2OOps st2 instPk fk f rest with
                | error e => rw [hrec] at h; exact absurd h (by simp [exceptBind_err])
                | ok r2 => exact ih _ _ hrec k v hm2
        | other s => simp [updateM2OOps] at h

theorem update_m2m_ok_recognized (instPk : Nat) (data : List (String × PayVal)) :
    ∀ (st : Store) (r : Store × List UEvent), update_many_to_many_related st instPk data = .ok r →
      ∀ f pv, (f, pv) ∈ data → ∀ k v, (k, v) ∈ pv.asOps → OpKey.recognized k = true := by
  induction data with
  | nil => intro st r _ f pv hm; simp at hm
  | cons fv rest ih =>
      intro st r h f pv hm k v hkv
      obtain ⟨f0, pv0⟩ := fv
      simp only [update_many_to_many_related] at h
      cases h1 : updateM2MOps st instPk f0 pv0.asOps with
      | error e => rw [h1] at h; exact absurd h (by simp [exceptBind_err])
      | ok r1 =>
          rw [h1] at h
          simp only [exceptBind_ok] at h
          cases h2 : update_many_to_many_related r1.1 instPk rest with
          | error e => rw [h2] at h; exact absurd h (by simp [exceptBind_err])
          | ok r2 =>
              rcases List.mem_cons.mp hm with hm2 | hm2
              · obtain ⟨hf, hpv⟩ := Prod.mk.injEq .. ▸ hm2
                exact updateM2MOps_ok_recognized instPk f0 pv0.asOps st r1 h1 k v (hpv ▸ hkv)
              · exact ih _ _ h2 f pv hm2 k v hkv

theorem update_m2o_ok_recognized (instPk : Nat) (fkOf : String → String)
    (data : List (String × PayVal)) :
    ∀ (st : Store) (r : Store × List UEvent),
      update_many_to_one_related st instPk fkOf data = .ok r →
      ∀ f pv, (f, pv) ∈ data → ∀ k v, (k, v) ∈ pv.asOps → OpKey.recognized k = true := by
  induction data with
  | nil => intro st r _ f pv hm; simp at hm
  | cons fv rest ih =>
      intro st r h f pv hm k v hkv
      obtain ⟨f0, pv0⟩ := fv
      simp only [update_many_to_one_related] at h
      cases h1 : updateM2OOps st instPk (fkOf f0) f0 pv0.asOps with
      | error e => rw [h1] at h; exact absurd h (by simp [exceptBind_err])
      | ok r1 =>
          rw [h1] at h
          simp only [exceptBind_ok] at h
          cases h2 : update_many_to_one_related r1.1 instPk fkOf rest with
          | error e => rw [h2] at h; exact absurd h (by simp [exceptBind_err])
          | ok r2 =>
              rcases List.mem_cons.mp hm with hm2 | hm2
              · obtain ⟨hf, hpv⟩ := Prod.mk.injEq .. ▸ hm2
                exact updateM2OOps_ok_recognized instPk (fkOf f0) f0 pv0.asOps st r1 h1 k v (hpv ▸ hkv)
              · exact ih _ _ h2 f pv hm2 k v hkv

/-- C2 (amended): only the `NestedUpdateMixin` collection handlers enforce
the closed operation set (a successful run implies every key was recognized,
and an unrecognized key fails with the `ValidationError`
`"<key> is an invalid operation, "` naming it); the `NestedCreateMixin`
collection handlers have no `else` branch and silently ignore any
unrecognized operation key. -/
theorem claim_C2 :
    (∀ (st : Store) (instPk : Nat) (data : List (String × PayVal)) (r : Store × List UEvent),
        update_many_to_many_related st instPk data = .ok r →
        ∀ f pv, (f, pv) ∈ data → ∀ k v, (k, v) ∈ PayVal.asOps pv → OpKey.recognized k = true)
  ∧ (∀ (st : Store) (instPk : Nat) (fkOf : String → String) (data : List (String × PayVal))
        (r : Store × List UEvent),
        update_many_to_one_related st instPk fkOf data = .ok r →
        ∀ f pv, (f, pv) ∈ data → ∀ k v, (k, v) ∈ PayVal.asOps pv → OpKey.recognized k = true)
  ∧ (∀ (st : Store) (instPk : Nat) (f s : String) (v : OpVal)
        (rest : List (OpKey × OpVal)) (restData : List (String × PayVal)),
        update_many_to_many_related st instPk ((f, .ops ((.other s, v) :: rest)) :: restData)
          = .error (.validation (s ++ " is an invalid operation, ")))
  ∧ (∀ (st : Store) (instPk : Nat) (fkOf : String → String) (f s : String) (v : OpVal)
        (rest : List (OpKey × OpVal)) (restData : List (String × PayVal)),
        update_many_to_one_related st instPk fkOf ((f, .ops ((.other s, v) :: rest)) :: restData)
          = .error (.validation (s ++ " is an invalid operation, ")))
  ∧ (∀ (st : Store) (instPk : Nat) (f s : String) (v : OpVal)
        (rest : List (OpKey × OpVal)) (restData : List (String × PayVal)),
        create_many_to_many_related st instPk ((f, .ops ((.other s, v) :: rest)) :: restData)
          = create_many_to_many_related st instPk ((f, .ops rest) :: restData))
  ∧ (∀ (st : Store) (instPk : Nat) (fkOf : String → String) (f s : String) (v : OpVal)
        (rest : List (OpKey × OpVal)) (restData : List (String × PayVal)),
        create_many_to_one_related st instPk fkOf ((f, .ops ((.other s, v) :: rest)) :: restData)
          = create_many_to_one_related st instPk fkOf ((f, .ops rest) :: restData)) := by
  refine ⟨?_, ?_, ?_, ?_, ?_, ?_⟩
  · intro st instPk data r h f pv hm k v hkv
    exact update_m2m_ok_recognized instPk data st r h f pv hm k v hkv
  · intro st instPk fkOf data r h f pv hm k v hkv
    exact update_m2o_ok_recognized instPk fkOf data st r h f pv hm k v hkv
  · intro st instPk f s v rest restData; rfl
  · intro st instPk fkOf f s v rest restData; rfl
  · intro st instPk f s v rest restData; rfl
  · intro st instPk fkOf f s v rest restData; rfl

/-- Witness for C2: a concrete successful many-to-many update run whose only
operation key is `ADD`, which the theorem then shows recognized. -/
theorem claim_C2_witness : OpKey.recognized .ADD = true :=
  claim_C2.1 ⟨2, [(1, [])], []⟩ 1 [("tags", PayVal.ops [(.ADD, .pks [1])])]
    (⟨2, [(1, [])], [((1, "tags"), [1])]⟩, [.m2mWrite "tags"]) (by rfl)
    "tags" (PayVal.ops [(.ADD, .pks [1])]) (List.mem_singleton.mpr rfl)
    .ADD (.pks [1]) (by simp [PayVal.asOps])

theorem lookupAL_some_mem {α : Type} (l : List (String × α)) (n : String) (kk : α)
    (h : lookupAL l n = some kk) : n ∈ l.map Prod.fst := by
  unfold lookupAL at h
  cases hf : l.find? (fun p => p.1 == n) with
  | none => rw [hf] at h; simp at h
  | some p =>
      have hmem := List.mem_of_find?_eq_some hf
      have hpred := List.find?_some hf
      simp only [beq_iff_eq] at hpred
      exact hpred ▸ List.mem_map_of_mem Prod.fst hmem

theorem dictUpsert_keys_mem {α : Type} (l : List (String × α)) (k : String) (v : α)
    (n : String) : n ∈ (dictUpsert l k v).map Prod.fst ↔ n ∈ l.map Prod.fst ∨ n = k := by
  unfold dictUpsert
  by_cases h : l.any (fun p => p.1 == k)
  · simp only [h, if_true, List.map_map, List.mem_map]
    constructor
    · rintro ⟨p, hp, hpn⟩
      by_cases hpk : p.1 == k
      · simp only [Function.comp_apply, hpk, if_pos, if_true] at hpn
        exact Or.inr hpn.symm
      · simp only [Function.comp_apply, hpk] at hpn
        simp only [Bool.false_eq_true, if_false] at hpn
        exact Or.inl ⟨p, hp, hpn⟩
    · rintro (hn | hn)
      · obtain ⟨p, hp, hpn⟩ := hn
        refine ⟨p, hp, ?_⟩
        by_cases hpk : p.1 == k
        · simp only [Function.comp_apply, hpk, if_true]
          exact (beq_iff_eq.mp hpk) ▸ hpn
        · simp only [Function.comp_apply, hpk, Bool.false_eq_true, if_false]
          exact hpn
      · obtain ⟨p, hp, hpk⟩ := List.any_eq_true.mp h
        refine ⟨p, hp, ?_⟩
        simp only [Function.comp_apply, hpk, if_true]
        exact hn.symm
  · simp only [h, if_false, List.map_append, List.mem_append]
    simp

theorem dictUpdate_keys_mem {α : Type} (other : List (String × α)) :
    ∀ (l : List (String × α)) (n : String),
      n ∈ (dictUpdate l other).map Prod.fst ↔ n ∈ l.map Prod.fst ∨ n ∈ other.map Prod.fst := by
  induction other with
  | nil => intro l n; simp [dictUpdate]
  | cons p rest ih =>
      intro l n
      have : dictUpdate l (p :: rest) = dictUpdate (dictUpsert l p.1 p.2) rest := rfl
      rw [this, ih, dictUpsert_keys_mem]
      simp only [List.map_cons, List.mem_cons]
      tauto

theorem mem_map_fst_contains {α : Type} (l : List (String × α)) (n : String)
    (h : n ∈ l.map Prod.fst) : (l.map Prod.fst).contains n = true := by
  have hiff : (l.map Prod.fst).contains n = true ↔ n ∈ l.map Prod.fst := by simp
  exact hiff.mpr h

theorem checkEntries_ok (fullFields : List (String × FieldKind)) (node : SelNode) :
    ∀ (es : List (String × SelTree)) (u : Unit),
      (∀ n ∈ es.map Prod.fst, ∃ kk, lookupAL fullFields n = some kk ∧ kk.isNested = true) →
      es.foldlM (fun _ e => checkNestedEntry fullFields node e) u = .ok () := by
  intro es
  induction es with
  | nil => intro u _; rfl
  | cons e rest ih =>
      intro u hk
      obtain ⟨kk, hl, hn⟩ := hk e.1 (by simp)
      have hmem : e.1 ∈ fullFields.map Prod.fst := lookupAL_some_mem _ _ _ hl
      have hcont : (fullFields.map Prod.fst).contains e.1 = true :=
        mem_map_fst_contains _ _ hmem
      have hstep : checkNestedEntry fullFields node e = .ok () := by
        unfold checkNestedEntry
        rw [if_neg (not_not_intro hcont), hl]
        simp [hn]
      rw [List.foldlM_cons, hstep, exceptBind_ok]
      exact ih () (fun n hn2 => hk n (List.mem_cons_of_mem _ hn2))

theorem resolve_fold (fullFields : List (String × FieldKind)) :
    ∀ (q : SelTree) (acc : List String × List (String × SelTree)),
      (∀ n ∈ leafNames q, n ∈ fullFields.map Prod.fst) →
      (∀ n ∈ nestedKeys q, ∃ kk, lookupAL fullFields n = some kk ∧ kk.isNested = true) →
      ∃ nested, q.foldlM (procSelNode fullFields) acc = .ok (acc.1 ++ leafNames q, nested)
        ∧ (∀ n, n ∈ nested.map Prod.fst ↔ n ∈ acc.2.map Prod.fst ∨ n ∈ nestedKeys q) := by
  intro q
  induction q with
  | nil =>
      intro acc _ _
      refine ⟨acc.2, ?_, fun n => by simp [nestedKeys]⟩
      simp only [List.foldlM_nil, leafNames, List.append_nil]
      rfl
  | cons node rest ih =>
      intro acc hleaf hkey
      cases node with
      | flat m =>
          have hm : m ∈ fullFields.map Prod.fst := hleaf m (by simp [leafNames])
          have hcont : (fullFields.map Prod.fst).contains m = true :=
            mem_map_fst_contains _ _ hm
          obtain ⟨nested, hfold, hiff⟩ :=
            ih (acc.1 ++ [m], acc.2)
              (fun n hn => hleaf n (by simp [leafNames]; exact Or.inr hn))
              (fun n hn => hkey n (by simp [nestedKeys] at hn ⊢; exact hn))
          refine ⟨nested, ?_, ?_⟩
          · rw [List.foldlM_cons]
            have hstep : procSelNode fullFields acc (.flat m) = .ok (acc.1 ++ [m], acc.2) := by
              simp only [procSelNode]
              rw [if_neg (not_not_intro hcont)]
            rw [hstep, exceptBind_ok, hfold]
            simp [leafNames]
          · intro n
            rw [hiff n]
            simp [nestedKeys]
      | nested es =>
          have hes : ∀ n ∈ es.map Prod.fst,
              ∃ kk, lookupAL fullFields n = some kk ∧ kk.isNested = true := by
            intro n hn
            refine hkey n ?_
            simp only [nestedKeys]
            exact List.mem_append.mpr (Or.inl hn)
          obtain ⟨nested, hfold, hiff⟩ :=
            ih (acc.1, dictUpdate acc.2 es)
              (fun n hn => hleaf n (by simp [leafNames] at hn ⊢; exact hn))
              (fun n hn => hkey n (by
                simp only [nestedKeys]
                exact List.mem_append.mpr (Or.inr hn)))
          refine ⟨nested, ?_, ?_⟩
          · rw [List.foldlM_cons]
            have hstep : procSelNode fullFields acc (.nested es)
                = .ok (acc.1, dictUpdate acc.2 es) := by
              simp only [procSelNode]
              rw [checkEntries_ok fullFields (.nested es) es () hes]
              rfl
            rw [hstep, exceptBind_ok, hfold]
            simp [leafNames]
          · intro n
            rw [hiff n, dictUpdate_keys_mem]
            simp only [nestedKeys, List.mem_append]
            tauto

/-- C3 (amended): for a selection tree whose flat leaves all exist in the
field set and whose nested keys all name nested fields (the amendment: the
claim as stated only required existence, but a nested key naming a flat field
raises "is not a nested field"), `resolveQuery` succeeds and its visible
output is exactly the filter of `fullFields` by membership in leaves plus
nested keys — hence a subset of `fullFields`, equal as a set to the leaves
plus the nested keys, preserving relative order (it is a `List.filter`, and a
sublist of `fullFields`). -/
theorem claim_C3 (fullFields : List (String × FieldKind)) (q : SelTree)
    (hleaf : ∀ n ∈ leafNames q, n ∈ fullFields.map Prod.fst)
    (hkey : ∀ n ∈ nestedKeys q, ∃ kk, lookupAL fullFields n = some kk ∧ kk.isNested = true) :
    ∃ r, resolveQuery fullFields q = .ok r
      ∧ r.visible = fullFields.filter
          (fun p => (leafNames q).contains p.1 || (nestedKeys q).contains p.1)
      ∧ r.visible.Sublist fullFields
      ∧ (∀ n, n ∈ r.visible.map Prod.fst ↔ (n ∈ leafNames q ∨ n ∈ nestedKeys q)) := by
  obtain ⟨nested, hfold, hiff⟩ := resolve_fold fullFields q ([], []) hleaf hkey
  have hfold2 : q.foldlM (procSelNode fullFields) (([] : List String), ([] : List (String × SelTree)))
      = .ok (leafNames q, nested) := by simpa using hfold
  have hiff2 : ∀ n, n ∈ nested.map Prod.fst ↔ n ∈ nestedKeys q := by
    intro n
    rw [hiff n]
    simp
  have hmemA : ∀ n, n ∈ leafNames q ++ nested.map Prod.fst
      ↔ (n ∈ leafNames q ∨ n ∈ nestedKeys q) := by
    intro n
    rw [List.mem_append, hiff2 n]
  have hres : resolveQuery fullFields q
      = .ok ⟨fullFields.filter
          (fun p => ((leafNames q ++ nested.map Prod.fst).contains p.1)), nested⟩ := by
    unfold resolveQuery
    rw [hfold2]
    rfl
  have hpred : ∀ p, p ∈ fullFields →
      ((leafNames q ++ nested.map Prod.fst).contains p.1)
        = ((leafNames q).contains p.1 || (nestedKeys q).contains p.1) := by
    intro p _
    rw [Bool.eq_iff_iff]
    simpa using hmemA p.1
  have hfilter : fullFields.filter (fun p => ((leafNames q ++ nested.map Prod.fst).contains p.1))
      = fullFields.filter (fun p => (leafNames q).contains p.1 || (nestedKeys q).contains p.1) :=
    List.filter_congr hpred
  refine ⟨_, hres, ?_, ?_, ?_⟩
  · exact hfilter
  · exact hfilter ▸ List.filter_sublist fullFields
  · intro n
    constructor
    · intro hn
      obtain ⟨p, hp, hpn⟩ := List.mem_map.mp hn
      have hpf := (List.mem_filter.mp hp).2
      have : p.1 ∈ leafNames q ++ nested.map Prod.fst := by simpa using hpf
      exact hpn ▸ (hmemA p.1).mp this
    · intro hn
      have hnf : n ∈ fullFields.map Prod.fst := by
        rcases hn with hn | hn
        · exact hleaf n hn
        · obtain ⟨kk, hl, _⟩ := hkey n hn
          exact lookupAL_some_mem _ _ _ hl
      obtain ⟨p, hp, hpn⟩ := List.mem_map.mp hnf
      refine List.mem_map.mpr ⟨p, List.mem_filter.mpr ⟨hp, ?_⟩, hpn⟩
      have : p.1 ∈ leafNames q ++ nested.map Prod.fst := (hmemA p.1).mpr (hpn ▸ hn)
      simpa using this

/-- Witness for C3: the Post scenario selection satisfies both hypotheses. -/
theorem claim_C3_witness :
    ∃ r, resolveQuery
        [("title", FieldKind.flat), ("author", FieldKind.nestedSingle),
         ("comments", FieldKind.nestedList), ("tags", FieldKind.nestedList)]
        [.flat "title", .nested [("comments", [.flat "text"])]] = .ok r
      ∧ r.visible = ([("title", FieldKind.flat), ("author", FieldKind.nestedSingle),
          ("comments", FieldKind.nestedList), ("tags", FieldKind.nestedList)]).filter
          (fun p => (leafNames [.flat "title", .nested [("comments", [.flat "text"])]]).contains p.1
            || (nestedKeys [.flat "title", .nested [("comments", [.flat "text"])]]).contains p.1)
      ∧ r.visible.Sublist [("title", FieldKind.flat), ("author", FieldKind.nestedSingle),
          ("comments", FieldKind.nestedList), ("tags", FieldKind.nestedList)]
      ∧ (∀ n, n ∈ r.visible.map Prod.fst
          ↔ (n ∈ leafNames [.flat "title", .nested [("comments", [.flat "text"])]]
              ∨ n ∈ nestedKeys [.flat "title", .nested [("comments", [.flat "text"])]])) :=
  claim_C3 _ _
    (by intro n hn; simp [leafNames] at hn; simp [hn])
    (by
      intro n hn
      simp [nestedKeys] at hn
      exact ⟨.nestedList, by simp [hn, lookupAL], rfl⟩)

theorem repl_trace_shape (instPk : Nat) (data : List (String × PayVal)) :
    ∀ (st : Store) (e : UEvent),
      e ∈ (update_replaceable_foreignkey_related st instPk data).2 → ∃ f, e = .replaceFK f := by
  induction data with
  | nil => intro st e he; simp [update_replaceable_foreignkey_related] at he
  | cons fv rest ih =>
      intro st e he
      obtain ⟨f, v⟩ := fv
      simp only [update_replaceable_foreignkey_related, List.mem_cons] at he
      rcases he with he | he
      · exact ⟨f, he⟩
      · exact ih _ _ he

theorem writ_trace_shape (instPk : Nat) (data : List (String × PayVal)) :
    ∀ (st : Store) (r : Store × List UEvent),
      update_writable_foreignkey_related st instPk data = .ok r →
      ∀ e ∈ r.2, ∃ f, e = .writFK f := by
  induction data with
  | nil =>
      intro st r h e he
      simp only [update_writable_foreignkey_related] at h
      cases h
      simp at he
  | cons fv rest ih =>
      intro st r h e he
      obtain ⟨f, v⟩ := fv
      cases href : (st.entFields instPk).bind (fun fs => lookupAL fs f) with
      | none =>
          simp only [update_writable_foreignkey_related, href] at h
          cases h
      | some refPk =>
          simp only [update_writable_foreignkey_related, href] at h
          cases hrec : update_writable_foreignkey_related (st.updEntity refPk v.asObj) instPk rest with
          | error e2 => rw [hrec] at h; cases h
          | ok r2 =>
              rw [hrec] at h
              simp only [exceptBind_ok] at h
              cases h
              rcases List.mem_cons.mp he with he2 | he2
              · exact ⟨f, he2⟩
              · exact ih _ _ hrec e he2

theorem m2mOps_trace_shape (instPk : Nat) (f : String) (ops : List (OpKey × OpVal)) :
    ∀ (st : Store) (r : Store × List UEvent), updateM2MOps st instPk f ops = .ok r →
      ∀ e ∈ r.2, ∃ g, e = .m2mWrite g := by
  induction ops with
  | nil =>
      intro st r h e he
      simp only [updateM2MOps] at h
      cases h
      simp at he
  | cons kv rest ih =>
      intro st r h e he
      obtain ⟨k, v⟩ := kv
      cases k with
      | ADD =>
          simp only [updateM2MOps] at h
          cases hrec : updateM2MOps (st.relAdd instPk f v.asPks) instPk f rest with
          | error e2 => rw [hrec] at h; cases h
          | ok r2 =>
              rw [hrec] at h; simp only [exceptBind_ok] at h; cases h
              rcases List.mem_cons.mp he with he2 | he2
              · exact ⟨f, he2⟩
              · exact ih _ _ hrec e he2
      | CREATE =>
          simp only [updateM2MOps] at h
          cases hrec : updateM2MOps
              ((bulk_create_objs st v.asSubs).1.relAdd instPk f (bulk_create_objs st v.asSubs).2)
              instPk f rest with
          | error e2 => rw [hrec] at h; cases h
          | ok r2 =>
              rw [hrec] at h; simp only [exceptBind_ok] at h; cases h
              rcases List.mem_cons.mp he with he2 | he2
              · exact ⟨f, he2⟩
              · exact ih _ _ hrec e he2
      | REMOVE =>
          simp only [updateM2MOps] at h
          cases hrec : updateM2MOps (st.relRemove instPk f v.asPks) instPk f rest with
          | error e2 => rw [hrec] at h; cases h
          | ok r2 =>
              rw [hrec] at h; simp only [exceptBind_ok] at h; cases h
              rcases List.mem_cons.mp he with he2 | he2
              · exact ⟨f, he2⟩
              · exact ih _ _ hrec e he2
      | UPDATE =>
          simp only [updateM2MOps] at h
          cases hb : m2mBulkUpd st instPk f v.asUpd with
          | error e2 => rw [hb] at h; cases h
          | ok st2 =>
              rw [hb] at h
              simp only [exceptBind_ok] at h
              cases hrec : updateM2MOps st2 instPk f rest with
              | error e2 => rw [hrec] at h; cases h
              | ok r2 =>
                  rw [hrec] at h; simp only [exceptBind_ok] at h; cases h
                  rcases List.mem_cons.mp he with he2 | he2
                  · exact ⟨f, he2⟩
                  · exact ih _ _ hrec e he2
      | other s => simp only [updateM2MOps] at h; cases h

theorem m2m_trace_shape (instPk : Nat) (data : List (String × PayVal)) :
    ∀ (st : Store) (r : Store × List UEvent),
      update_many_to_many_related st instPk data = .ok r →
      ∀ e ∈ r.2, ∃ g, e = .m2mWrite g := by
  induction data with
  | nil =>
      intro st r h e he
      simp only [update_many_to_many_related] at h
      cases h
      simp at he
  | cons fv rest ih =>
      intro st r h e he
      obtain ⟨f, v⟩ := fv
      simp only [update_many_to_many_related] at h
      cases h1 : updateM2MOps st instPk f v.asOps with
      | error e2 => rw [h1] at h; cases h
      | ok r1 =>
          rw [h1] at h; simp only [exceptBind_ok] at h
          cases h2 : update_many_to_many_related r1.1 instPk rest with
          | error e2 => rw [h2] at h; cases h
          | ok r2 =>
              rw [h2] at h; simp only [exceptBind_ok] at h; cases h
              rcases List.mem_append.mp he with he2 | he2
              · exact m2mOps_trace_shape instPk f v.asOps st r1 h1 e he2
              · exact ih _ _ h2 e he2

theorem m2oOps_trace_shape (instPk : Nat) (fk f : String) (ops : List (OpKey × OpVal)) :
    ∀ (st : Store) (r : Store × List UEvent), updateM2OOps st instPk fk f ops = .ok r →
      ∀ e ∈ r.2, ∃ g, e = .m2oWrite g := by
  induction ops with
  | nil =>
      intro st r h e he
      simp only [updateM2OOps] at h
      cases h
      simp at he
  | cons kv rest ih =>
      intro st r h e he
      obtain ⟨k, v⟩ := kv
      cases k with
      | ADD =>
          simp only [updateM2OOps] at h
          cases hrec : updateM2OOps (st.bulkSetField v.asPks fk instPk) instPk fk f rest with
          | error e2 => rw [hrec] at h; cases h
          | ok r2 =>
              rw [hrec] at h; simp only [exceptBind_ok] at h; cases h
              rcases List.mem_cons.mp he with he2 | he2
              · exact ⟨f, he2⟩
              · exact ih _ _ hrec e he2
      | CREATE =>
          simp only [updateM2OOps] at h
          cases hrec : updateM2OOps
              (bulk_create_objs st (v.asSubs.map (fun s => dictUpsert s fk instPk))).1
              instPk fk f rest with
          | error e2 => rw [hrec] at h; cases h
          | ok r2 =>
              rw [hrec] at h; simp only [exceptBind_ok] at h; cases h
              rcases List.mem_cons.mp he with he2 | he2
              · exact ⟨f, he2⟩
              · exact ih _ _ hrec e he2
      | REMOVE =>
          simp only [updateM2OOps] at h
          cases hrec : updateM2OOps (st.deleteRelated instPk fk v.asPks) instPk fk f rest with
          | error e2 => rw [hrec] at h; cases h
          | ok r2 =>
              rw [hrec] at h; simp only [exceptBind_ok] at h; cases h
              rcases List.mem_cons.mp he with he2 | he2
              · exact ⟨f, he2⟩
              · exact ih _ _ hrec e he2
      | UPDATE =>
          simp only [updateM2OOps] at h
          cases hb : m2oBulkUpd st instPk fk v.asUpd with
          | error e2 => rw [hb] at h; cases h
          | ok st2 =>
              rw [hb] at h
              simp only [exceptBind_ok] at h
              cases hrec : updateM2OOps st2 instPk fk f rest with
              | error e2 => rw [hrec] at h; cases h
              | ok r2 =>
                  rw [hrec] at h; simp only [exceptBind_ok] at h; cases h
                  rcases List.mem_cons.mp he with he2 | he2
                  · exact ⟨f, he2⟩
                  · exact ih _ _ hrec e he2
      | other s => simp only [updateM2OOps] at h; cases h

theorem m2o_trace_shape (instPk : Nat) (fkOf : String → String)
    (data : List (String × PayVal)) :
    ∀ (st : Store) (r : Store × List UEvent),
      update_many_to_one_related st instPk fkOf data = .ok r →
      ∀ e ∈ r.2, ∃ g, e = .m2oWrite g := by
  induction data with
  | nil =>
      intro st r h e he
      simp only [update_many_to_one_related] at h
      cases h
      simp at he
  | cons fv rest ih =>
      intro st r h e he
      obtain ⟨f, v⟩ := fv
      simp only [update_many_to_one_related] at h
      cases h1 : updateM2OOps st instPk (fkOf f) f v.asOps with
      | error e2 => rw [h1] at h; cases h
      | ok r1 =>
          rw [h1] at h; simp only [exceptBind_ok] at h
          cases h2 : update_many_to_one_related r1.1 instPk fkOf rest with
          | error e2 => rw [h2] at h; cases h
          | ok r2 =>
              rw [h2] at h; simp only [exceptBind_ok] at h; cases h
              rcases List.mem_append.mp he with he2 | he2
              · exact m2oOps_trace_shape instPk (fkOf f) f v.asOps st r1 h1 e he2
              · exact ih _ _ h2 e he2

theorem idx_lt_of_no_match_right (L1 L2 : List UEvent) (p : UEvent → Bool)
    (h2 : ∀ e ∈ L2, p e = false) (i : Nat) (hi : i < (L1 ++ L2).length)
    (hp : p ((L1 ++ L2).get ⟨i, hi⟩) = true) : i < L1.length := by
  by_contra hge
  push_neg at hge
  have hlen : i - L1.length < L2.length := by
    simp only [List.length_append] at hi
    omega
  have : (L1 ++ L2).get ⟨i, hi⟩ = L2.get ⟨i - L1.length, hlen⟩ := by
    simp only [List.get_eq_getElem]
    exact List.getElem_append_right hge
  rw [this] at hp
  have hm : L2.get ⟨i - L1.length, hlen⟩ ∈ L2 := by
    simp only [List.get_eq_getElem]
    exact List.getElem_mem hlen
  rw [h2 _ hm] at hp
  cases hp

theorem idx_ge_of_no_match_left (L1 L2 : List UEvent) (p : UEvent → Bool)
    (h1 : ∀ e ∈ L1, p e = false) (i : Nat) (hi : i < (L1 ++ L2).length)
    (hp : p ((L1 ++ L2).get ⟨i, hi⟩) = true) : L1.length ≤ i := by
  by_contra hlt
  push_neg at hlt
  have : (L1 ++ L2).get ⟨i, hi⟩ = L1.get ⟨i, hlt⟩ := by
    simp only [List.get_eq_getElem]
    exact List.getElem_append_left hlt
  rw [this] at hp
  have hm : L1.get ⟨i, hlt⟩ ∈ L1 := by
    simp only [List.get_eq_getElem]
    exact List.getElem_mem hlt
  rw [h1 _ hm] at hp
  cases hp

theorem ordered_of_split (tr A B : List UEvent) (hEq : tr = A ++ B)
    (hA : ∀ e ∈ A, UEvent.isM2O e = false) (hB : ∀ e ∈ B, UEvent.isM2M e = false) :
    ∀ i j (hi : i < tr.length) (hj : j < tr.length),
      UEvent.isM2M (tr.get ⟨i, hi⟩) = true → UEvent.isM2O (tr.get ⟨j, hj⟩) = true → i < j := by
  subst hEq
  intro i j hi hj hpi hpj
  have hlt := idx_lt_of_no_match_right A B UEvent.isM2M hB i hi hpi
  have hge := idx_ge_of_no_match_left A B UEvent.isM2O hA j hj hpj
  omega

theorem base_last_of_split (tr T : List UEvent) (hEq : tr = T ++ [UEvent.baseUpdate]) :
    tr.getLast? = some UEvent.baseUpdate
      ∧ ∀ i (hi : i < tr.length), tr.get ⟨i, hi⟩ ≠ UEvent.baseUpdate → i < tr.length - 1 := by
  subst hEq
  refine ⟨List.getLast?_concat T, ?_⟩
  intro i hi hne
  by_contra hge
  push_neg at hge
  have hlen : (T ++ [UEvent.baseUpdate]).length = T.length + 1 := by simp
  have hieq : i = T.length := by omega
  subst hieq
  exact hne (by simp)

/-- C5: in every successful `NestedUpdateMixin.update` run, every
many-to-many relation write occurs strictly before every has-many
(many-to-one) relation write, and the base update (persisting the remaining
plain fields) is the last event — all relation writes precede it. -/
theorem claim_C5 (st : Store) (sch : Schema) (instPk : Nat)
    (data : List (String × PayVal)) (st' : Store) (tr : List UEvent)
    (h : update st sch instPk data = .ok (st', tr)) :
    (∀ i j (hi : i < tr.length) (hj : j < tr.length),
        UEvent.isM2M (tr.get ⟨i, hi⟩) = true → UEvent.isM2O (tr.get ⟨j, hj⟩) = true → i < j)
    ∧ tr.getLast? = some UEvent.baseUpdate
    ∧ (∀ i (hi : i < tr.length), tr.get ⟨i, hi⟩ ≠ UEvent.baseUpdate → i < tr.length - 1) := by
  simp only [update] at h
  cases h2 : update_writable_foreignkey_related
      (update_replaceable_foreignkey_related st instPk (classify sch.descs data).repl).1
      instPk (classify sch.descs data).writ with
  | error e2 => rw [h2] at h; cases h
  | ok r2 =>
      rw [h2] at h
      simp only [exceptBind_ok] at h
      cases h3 : update_many_to_many_related r2.1 instPk (classify sch.descs data).m2m with
      | error e2 => rw [h3] at h; cases h
      | ok r3 =>
          rw [h3] at h
          simp only [exceptBind_ok] at h
          cases h4 : update_many_to_one_related r3.1 instPk sch.fkOf (classify sch.descs data).m2o with
          | error e2 => rw [h4] at h; cases h
          | ok r4 =>
              rw [h4] at h
              simp only [exceptBind_ok] at h
              injection h with h5
              injection h5 with h6 h7
              have hs1 := repl_trace_shape instPk (classify sch.descs data).repl st
              have hs2 := writ_trace_shape instPk (classify sch.descs data).writ _ _ h2
              have hs3 := m2m_trace_shape instPk (classify sch.descs data).m2m _ _ h3
              have hs4 := m2o_trace_shape instPk sch.fkOf (classify sch.descs data).m2o _ _ h4
              have hA : ∀ e ∈ ((update_replaceable_foreignkey_related st instPk
                  (classify sch.descs data).repl).2 ++ r2.2) ++ r3.2, UEvent.isM2O e = false := by
                intro e he
                rcases List.mem_append.mp he with he2 | he2
                · rcases List.mem_append.mp he2 with he3 | he3
                  · obtain ⟨f, hf⟩ := hs1 e he3
                    rw [hf]; rfl
                  · obtain ⟨f, hf⟩ := hs2 e he3
                    rw [hf]; rfl
                · obtain ⟨f, hf⟩ := hs3 e he2
                  rw [hf]; rfl
              have hB : ∀ e ∈ r4.2 ++ [UEvent.baseUpdate], UEvent.isM2M e = false := by
                intro e he
                rcases List.mem_append.mp he with he2 | he2
                · obtain ⟨f, hf⟩ := hs4 e he2
                  rw [hf]; rfl
                · simp only [List.mem_singleton] at he2
                  rw [he2]; rfl
              have hEq1 : tr = (((update_replaceable_foreignkey_related st instPk
                  (classify sch.descs data).repl).2 ++ r2.2) ++ r3.2) ++ (r4.2 ++ [UEvent.baseUpdate]) := by
                rw [← h7, List.append_assoc]
              have hEq2 : tr = ((((update_replaceable_foreignkey_related st instPk
                  (classify sch.descs data).repl).2 ++ r2.2) ++ r3.2) ++ r4.2) ++ [UEvent.baseUpdate] := by
                rw [← h7]
              obtain ⟨hlast, honly⟩ := base_last_of_split tr _ hEq2
              exact ⟨ordered_of_split tr _ _ hEq1 hA hB, hlast, honly⟩

/-- Witness for C5: an empty update payload performs only the base update. -/
theorem claim_C5_witness :
    (∀ i j (hi : i < ([UEvent.baseUpdate] : List UEvent).length)
        (hj : j < ([UEvent.baseUpdate] : List UEvent).length),
        UEvent.isM2M (([UEvent.baseUpdate] : List UEvent).get ⟨i, hi⟩) = true →
        UEvent.isM2O (([UEvent.baseUpdate] : List UEvent).get ⟨j, hj⟩) = true → i < j)
    ∧ ([UEvent.baseUpdate] : List UEvent).getLast? = some UEvent.baseUpdate
    ∧ (∀ i (hi : i < ([UEvent.baseUpdate] : List UEvent).length),
        ([UEvent.baseUpdate] : List UEvent).get ⟨i, hi⟩ ≠ UEvent.baseUpdate →
        i < ([UEvent.baseUpdate] : List UEvent).length - 1) :=
  claim_C5 ⟨0, [], []⟩ ⟨[], fun _ => ""⟩ 1 [] ⟨0, [], []⟩ [UEvent.baseUpdate] (by rfl)
